import Mathlib

/-!
Verification development for the xyz-tank scan-route planner and
measurement-execution engine (src/xyztank/model/base.py).

The Python code is shallowly embedded: Python floats become exact
rationals (`ℚ`), numpy int32 index arrays become `List ℕ`, the numpy
result array of shape `(Nz, Ny, Nx, 2)` becomes a total function from an
`(iz, iy, ix)` triple to the two per-point values, and Python exceptions
become explicit error values carried next to the post-call state (Python
exceptions propagate, but mutations made before the raise persist, so
every operation returns the state it leaves behind together with an
optional error).
-/

namespace XyzTank

/-- Models `Tank` (base.py, line 17): a name and (width, depth, height). -/
structure Tank where
  name : String
  dimensions : ℚ × ℚ × ℚ
deriving DecidableEq

/-- Models `ScanRoute` (base.py, line 30): four parallel integer arrays.
`which_motor_and_side` holds the coded motor/direction commands
(0 = x left, 1 = x right, 10 = y left, 11 = y right, 21 = z right,
and the sentinel written at the very last position). -/
structure ScanRoute where
  indexes_x : List ℕ
  indexes_y : List ℕ
  indexes_z : List ℕ
  which_motor_and_side : List ℕ
deriving DecidableEq

/-- Models `MeasurementPlan` (base.py, line 57). `grid` is the triple of
coordinate arrays along X, Y, Z. -/
structure MeasurementPlan where
  name : String
  tank : Tank
  position : ℚ × ℚ × ℚ
  grid : List ℚ × List ℚ × List ℚ
  grid_precision : ℚ × ℚ × ℚ
deriving DecidableEq

/-- Models `XyzSystemState` (base.py, line 75). -/
inductive XyzSystemState where
  | AT_THE_BEGINNING
  | STOPPED
  | RUNNING
  | FINISHED
deriving DecidableEq

/-- Models `MeasurementProgress` (base.py, line 90). The numpy array
`data` (shape `(Nz, Ny, Nx, 2)`) is modeled as a function from the
`(iz, iy, ix)` triple to the pair of per-point values. -/
structure MeasurementProgress where
  data : ℕ × ℕ × ℕ → ℕ × ℕ
  percent : ℕ
  last_measurement_point : ℕ

/-- Errors raised inside `_make_scan_route` when an axis of the grid is
empty: `np.arange` with step 0 (line 459, when `len_grid_x = 0`),
`int(y_movement.size / len_grid_y)` dividing by zero (line 461, when
`len_grid_y = 0`), and `which_motor[-1]` indexing an empty array
(line 470, when the total point count is 0). -/
inductive NpError where
  | arangeZeroStep
  | zeroDivision
  | emptyIndex
deriving DecidableEq

/-- Python exception classes observable through the public operations:
`ValueError("The system is busy.")` and friends, a propagated numpy
error, and the `AttributeError` from dereferencing a `None` plan. -/
inductive PyError where
  | busy
  | np (e : NpError)
  | attributeNone
deriving DecidableEq

/-!
## numpy helpers

`npRepeat l m` is `np.repeat(l, m)` (each element repeated `m` times, in
place). `npTileCols col k` models the pattern
`np.repeat(col.reshape([n,1]), k, axis=1).transpose().flatten()`, which
lays `k` identical copies of `col` one after another. `npArange` is
`np.arange(start, stop, step)` for non-negative integers and positive
step. `npSet l idxs v` is the fancy-index assignment `l[idxs] = v`.
-/

/-- `np.repeat(l, m)`: every element of `l` repeated `m` times. -/
def npRepeat : List ℕ → ℕ → List ℕ
  | [], _ => []
  | a :: t, m => List.replicate m a ++ npRepeat t m

/-- `np.repeat(col.reshape([n,1]), k, axis=1).transpose().flatten()`:
`k` copies of `col` concatenated. -/
def npTileCols (col : List ℕ) : ℕ → List ℕ
  | 0 => []
  | k + 1 => col ++ npTileCols col k

/-- `np.arange(start, stop, step)` for naturals with `step > 0`:
`ceil((stop - start) / step)` values `start, start + step, ...`. -/
def npArange (start stop step : ℕ) : List ℕ :=
  (List.range ((stop - start + (step - 1)) / step)).map (fun k => start + k * step)

/-- Fancy-index assignment `l[idxs] = v`. -/
def npSet (l : List ℕ) (idxs : List ℕ) (v : ℕ) : List ℕ :=
  idxs.foldl (fun a p => a.set p v) l

/-!
## Scan-route planner (`XyzSystem._make_scan_route`, base.py lines 399-477)
-/

/-- Lines 414-415: `np.repeat(np.arange(0, len_grid_y), len_grid_x)`. -/
def yForth (Nx Ny : ℕ) : List ℕ := npRepeat (List.range Ny) Nx

/-- Lines 412-413: each z index repeated `all_xy_values` times. -/
def indexes_z_list (Nx Ny Nz : ℕ) : List ℕ :=
  npRepeat (List.range Nz) (Nx * Ny)

/-- Lines 414-429: forward y sweep, its flip, their concatenation tiled
over the z layers (one extra forward copy when `len_grid_z` is odd). -/
def indexes_y_list (Nx Ny Nz : ℕ) : List ℕ :=
  if Nz % 2 = 0 then
    npTileCols (yForth Nx Ny ++ (yForth Nx Ny).reverse) (Nz / 2)
  else
    npTileCols (yForth Nx Ny ++ (yForth Nx Ny).reverse) ((Nz - 1) / 2) ++ yForth Nx Ny

/-- Lines 431-451: forward x sweep, its flip, their concatenation tiled
over the `all_yz_values = len_grid_z * len_grid_y` rows (one extra
forward copy when that count is odd). -/
def indexes_x_list (Nx Ny Nz : ℕ) : List ℕ :=
  if Nz * Ny % 2 = 0 then
    npTileCols (List.range Nx ++ (List.range Nx).reverse) (Nz * Ny / 2)
  else
    npTileCols (List.range Nx ++ (List.range Nx).reverse) ((Nz * Ny - 1) / 2) ++
      List.range Nx

/-- Lines 459-470: `which_motor` starts as zeros, rows ends get 1, layer
ends get 2, and the final entry gets the sentinel 3. -/
def whichMotorList (Nx Ny Nz : ℕ) : List ℕ :=
  let all_xyz := Nz * Ny * Nx
  let y_movement := npArange (Nx - 1) all_xyz Nx
  let z_movement := npArange (Nx * Ny - 1) all_xyz (Nx * Ny)
  ((npSet (npSet (List.replicate all_xyz 0) y_movement 1) z_movement 2).set (all_xyz - 1) 3)

/-- Lines 436-474: the per-entry side. Base pattern `[1]*Nx ++ [0]*Nx`
tiled like `indexes_x`; then row ends on even layers get 1, row ends on
odd layers get 0, layer ends get 1, and the final entry gets 2. -/
def whichSideList (Nx Ny Nz : ℕ) : List ℕ :=
  let all_xyz := Nz * Ny * Nx
  let yz := Nz * Ny
  let wsd := npRepeat [1, 0] Nx
  let base := if yz % 2 = 0 then npTileCols wsd (yz / 2)
              else npTileCols wsd ((yz - 1) / 2) ++ List.replicate Nx 1
  let y_movement := npArange (Nx - 1) all_xyz Nx
  let nrows := y_movement.length / Ny
  let forth := (((List.range nrows).filter (fun t => t % 2 = 0)).map
    (fun t => (y_movement.drop (t * Ny)).take Ny)).flatten
  let back := (((List.range nrows).filter (fun t => t % 2 = 1)).map
    (fun t => (y_movement.drop (t * Ny)).take Ny)).flatten
  let z_movement := npArange (Nx * Ny - 1) all_xyz (Nx * Ny)
  ((npSet (npSet (npSet base forth 1) back 0) z_movement 1).set (all_xyz - 1) 2)

/-- Line 475: `10 * which_motor + which_side`, elementwise. -/
def wmsList (Nx Ny Nz : ℕ) : List ℕ :=
  List.zipWith (fun m s => 10 * m + s) (whichMotorList Nx Ny Nz) (whichSideList Nx Ny Nz)

/-- Models `_make_scan_route` on a grid with `Nx`, `Ny`, `Nz` coordinates
per axis. The three error cases reproduce, in source order, the
exceptions an empty axis triggers: `np.arange(len_grid_x - 1, ..., 0)`
at line 459 when `Nx = 0`; the zero division in
`int(y_movement.size / len_grid_y)` at line 461 when `Ny = 0`; and the
`IndexError` of `which_motor[-1]` on an empty array at line 470 when the
total point count is 0. -/
def makeScanRoute (Nx Ny Nz : ℕ) : Except NpError ScanRoute :=
  if Nx = 0 then .error .arangeZeroStep
  else if Ny = 0 then .error .zeroDivision
  else if Nx * Ny * Nz = 0 then .error .emptyIndex
  else .ok ⟨indexes_x_list Nx Ny Nz, indexes_y_list Nx Ny Nz,
            indexes_z_list Nx Ny Nz, wmsList Nx Ny Nz⟩

/-- The route a plan's grid produces, with a dummy on the error path
(used only to shorten concrete statements). -/
def routeD (Nx Ny Nz : ℕ) : ScanRoute :=
  match makeScanRoute Nx Ny Nz with
  | .ok r => r
  | .error _ => ⟨[], [], [], []⟩

/-- The sequence of `(indexes_x[i], indexes_y[i], indexes_z[i])` index
triples of a route. -/
def routeTriples (r : ScanRoute) : List (ℕ × ℕ × ℕ) :=
  r.indexes_x.zip (r.indexes_y.zip r.indexes_z)

/-!
## The system object (`XyzSystem.__init__`, base.py lines 140-149) and
its synchronous operations
-/

/-- Models the mutable state of an `XyzSystem` instance. The
`measurement_thread` flag records whether a `threading.Thread` object
has been created and started. -/
structure XyzSystem where
  measurement_plan : Option MeasurementPlan
  measurement_progress : Option MeasurementProgress
  measurement_thread : Bool
  state : XyzSystemState
  motor_x : ℚ
  motor_y : ℚ
  motor_z : ℚ
  scan_route : Option ScanRoute

/-- `XyzSystem.__init__`: no plan, no progress, no thread, `STOPPED`,
motors at 5e-3, 6e-3, 7e-3, no route. -/
def initSystem : XyzSystem :=
  ⟨none, none, false, .STOPPED, 5 / 1000, 6 / 1000, 7 / 1000, none⟩

/-- Number of grid points `len(grid_x) * len(grid_y) * len(grid_z)`. -/
def gridCount (p : MeasurementPlan) : ℕ :=
  p.grid.1.length * p.grid.2.1.length * p.grid.2.2.length

/-- Models `configure_measurement` (base.py lines 170-181). Note the
source order: `measurement_progress` is cleared at line 176 BEFORE the
busy check at line 178, and the plan is stored at line 180 before
`_make_scan_route()` runs, so an exception inside the planner leaves the
new plan installed and the progress discarded. -/
def configure_measurement (s : XyzSystem) (p : MeasurementPlan) :
    XyzSystem × Option PyError :=
  let s1 := { s with measurement_progress := none }
  if s1.state = .RUNNING then (s1, some .busy)
  else
    let s2 := { s1 with measurement_plan := some p }
    match makeScanRoute p.grid.1.length p.grid.2.1.length p.grid.2.2.length with
    | .error e => (s2, some (.np e))
    | .ok r => ({ s2 with scan_route := some r }, none)

/-- Models `start_measurement` (base.py lines 183-190): `_set_to_running`
raises `ValueError` when already `RUNNING`; otherwise the state becomes
`RUNNING` and a thread running `_acquire_data` is created and started.
No check of `measurement_plan` is performed. -/
def start_measurement (s : XyzSystem) : XyzSystem × Option PyError :=
  if s.state = .RUNNING then (s, some .busy)
  else ({ s with state := .RUNNING, measurement_thread := true }, none)

/-- Models `resume_measurement` (base.py lines 192-196): the body is
`pass`. -/
def resume_measurement (s : XyzSystem) : XyzSystem × Option PyError :=
  (s, none)

/-- Models `stop_measurement` (base.py lines 198-206): a warning (no
state change, no error) when not `RUNNING`, otherwise the state becomes
`STOPPED`. -/
def stop_measurement (s : XyzSystem) : XyzSystem × Option PyError :=
  if s.state ≠ .RUNNING then (s, none)
  else ({ s with state := .STOPPED }, none)

/-- One motor's update in `_move_at_the_beginning` (base.py lines
390-395): `distance = position - plan.position[i]`; rotate left by
`distance` when positive, else rotate right by `abs(distance)`. -/
def movedMotor (pos target : ℚ) : ℚ :=
  let d := pos - target
  if 0 < d then pos - d else pos + |d|

/-- Models `_move_at_the_beginning` (base.py lines 383-397). The motors
are moved FIRST; only then does `_set_state_to_beginning` (line 368)
raise `ValueError` if the state is `RUNNING`. With no plan configured,
`plan.position` raises `AttributeError` before anything moves. -/
def move_at_the_beginning (s : XyzSystem) : XyzSystem × Option PyError :=
  match s.measurement_plan with
  | none => (s, some .attributeNone)
  | some plan =>
      let s1 := { s with
        motor_x := movedMotor s.motor_x plan.position.1,
        motor_y := movedMotor s.motor_y plan.position.2.1,
        motor_z := movedMotor s.motor_z plan.position.2.2 }
      if s1.state = .RUNNING then (s1, some .busy)
      else ({ s1 with state := .AT_THE_BEGINNING }, none)

/-!
## Measurement executor (`XyzSystem._acquire_data`, base.py lines 295-355)

The executor is modeled as a pure loop over route positions. The
`stopAt` parameter models cooperative cancellation: `stop_measurement`
flips the shared state to `STOPPED`, and the loop's check at line 344
observes it right after the progress record of iteration `stopAt` has
been stored. Logging and `time.sleep` have no modeled effect, but the
`n_percent_count` bookkeeping is kept because indexing
`n_percent_values[n_percent_count]` at line 336 can raise `IndexError`.
-/

/-- How the executor run ended: normal completion (line 351), the
cooperative stop at line 344, the `IndexError` from
`n_percent_values[n_percent_count]` at line 336, or the `NameError` at
line 353 when the loop body never ran and `i` is unbound. -/
inductive ExecEnd where
  | finished
  | stopped
  | indexError
  | nameError
deriving DecidableEq

/-- Result of one `_acquire_data` call: the result array, the last
`measurement_progress` stored, the motor positions, and how the run
ended. -/
structure ExecOutcome where
  data : ℕ × ℕ × ℕ → ℕ × ℕ
  progress : Option MeasurementProgress
  motors : ℚ × ℚ × ℚ
  endKind : ExecEnd

/-- `int(math.ceil((i / n_values) * 100))` (line 331), evaluated in
exact rational arithmetic: `ceil(100 * i / N)`. -/
def ceil100 (N i : ℕ) : ℕ := (100 * i + (N - 1)) / N

/-- `n_percent_values` (lines 326-328): nine milestones
`int(math.ceil(j + 1) * n_values / 10)` = `(j+1) * N / 10` truncated. -/
def nPercentValues (N : ℕ) : List ℕ :=
  (List.range 9).map (fun j => (j + 1) * N / 10)

/-- The `(iz, iy, ix)` triple of route position `i` (indices are always
within range when the route belongs to the plan being executed). -/
def triAt (rt : ScanRoute) (i : ℕ) : ℕ × ℕ × ℕ :=
  (rt.indexes_z.getD i 0, rt.indexes_y.getD i 0, rt.indexes_x.getD i 0)

/-- The pair of values lines 332-333 store for a point with indices
`(iz, iy, ix)`: `100*iz + 10*iy + ix` and `0` — a function of the
point's grid indices alone. -/
def pointVal (t : ℕ × ℕ × ℕ) : ℕ × ℕ :=
  (100 * t.1 + 10 * t.2.1 + t.2.2, 0)

/-- Lines 332-333: store `pointVal` of the point's indices into the
result array at `[iz][iy][ix]`. -/
def writePoint (rt : ScanRoute) (i : ℕ) (d : ℕ × ℕ × ℕ → ℕ × ℕ) :
    ℕ × ℕ × ℕ → ℕ × ℕ :=
  fun u => if u = triAt rt i then pointVal (triAt rt i) else d u

/-- The writes of route positions `lo, lo+1, ..., lo+len-1` in order. -/
def writeRange (rt : ScanRoute) : ℕ → ℕ → (ℕ × ℕ × ℕ → ℕ × ℕ) → ℕ × ℕ × ℕ → ℕ × ℕ
  | _, 0, d => d
  | lo, len + 1, d => writeRange rt (lo + 1) len (writePoint rt lo d)

/-- Dispatch of `actions.get(which_motor_and_side[i], None)` (lines
319-325, 347-349): 0 moves x left, 1 x right, 10 y left, 11 y right,
21 z right; any other code does nothing. Each move is one
`grid_precision` unit. -/
def applyAction (code : ℕ) (prec m : ℚ × ℚ × ℚ) : ℚ × ℚ × ℚ :=
  if code = 0 then (m.1 - prec.1, m.2.1, m.2.2)
  else if code = 1 then (m.1 + prec.1, m.2.1, m.2.2)
  else if code = 10 then (m.1, m.2.1 - prec.2.1, m.2.2)
  else if code = 11 then (m.1, m.2.1 + prec.2.1, m.2.2)
  else if code = 21 then (m.1, m.2.1, m.2.2 + prec.2.2)
  else m

/-- The motor moves commanded after route positions
`lo, ..., lo+len-1`, in order (lines 347-349). -/
def motorRange (rt : ScanRoute) (prec : ℚ × ℚ × ℚ) : ℕ → ℕ → ℚ × ℚ × ℚ → ℚ × ℚ × ℚ
  | _, 0, m => m
  | lo, len + 1, m =>
      motorRange rt prec (lo + 1) len
        (applyAction (rt.which_motor_and_side.getD lo 32) prec m)

/-- The per-point loop of `_acquire_data` (lines 330-349), with an
explicit fuel argument for structural recursion; callers pass
`fuel = N - i`, so fuel runs out exactly when `i` reaches `N` and both
terminal branches coincide with the epilogue at lines 351-353 (which
stores a fresh progress record with `percent = 100` and the last loop
index `N - 1`). Iteration order inside the body follows the source:
compute `percent`; write the two data values; store the progress
record; evaluate `i == n_percent_values[n_percent_count]` (raising
`IndexError` if `n_percent_count` is out of range, and bumping the
counter, capped at the last milestone, on a hit); check the cooperative
stop; perform the motor action. -/
def acquireLoop (rt : ScanRoute) (prec : ℚ × ℚ × ℚ) (N : ℕ) (npv : List ℕ)
    (stopAt : Option ℕ) :
    ℕ → ℕ → ℕ → (ℕ × ℕ × ℕ → ℕ × ℕ) → ℚ × ℚ × ℚ → Option MeasurementProgress → ExecOutcome
  | 0, _, _, data, motors, _ =>
      ⟨data, some ⟨data, 100, N - 1⟩, motors, .finished⟩
  | fuel + 1, i, count, data, motors, _prog =>
      if i < N then
        let percent := ceil100 N i
        let data' := writePoint rt i data
        let prog' := some (⟨data', percent, i⟩ : MeasurementProgress)
        if count < npv.length then
          let count' := if i = npv.getD count 0 then
              (if count ≠ npv.length - 1 then count + 1 else count)
            else count
          if stopAt = some i then ⟨data', prog', motors, .stopped⟩
          else acquireLoop rt prec N npv stopAt fuel (i + 1) count'
            data' (applyAction (rt.which_motor_and_side.getD i 32) prec motors) prog'
        else ⟨data', prog', motors, .indexError⟩
      else ⟨data, some ⟨data, 100, N - 1⟩, motors, .finished⟩

/-- Models one `_acquire_data` call (base.py lines 295-355). `init` is
`self.measurement_progress` on entry: `none` starts fresh at 0 with a
zero-filled array; `some p` resumes at `p.last_measurement_point + 1`
with `n_percent_count = int(math.floor(percent / 10))`. When the
resulting `range(start, n_values)` is empty the loop body never binds
`i` and line 353 raises `NameError`, leaving the stored progress as it
was. -/
def acquireData (plan : MeasurementPlan) (rt : ScanRoute)
    (init : Option MeasurementProgress) (stopAt : Option ℕ)
    (motors : ℚ × ℚ × ℚ) : ExecOutcome :=
  let N := gridCount plan
  let start := match init with
    | none => 0
    | some p => p.last_measurement_point + 1
  let count0 := match init with
    | none => 0
    | some p => p.percent / 10
  let data0 := match init with
    | none => fun _ => ((0 : ℕ), (0 : ℕ))
    | some p => p.data
  if start < N then
    acquireLoop rt plan.grid_precision N (nPercentValues N) stopAt
      (N - start) start count0 data0 motors init
  else ⟨data0, init, motors, .nameError⟩

/-!
## Closed forms for the planner's index arrays

`zAt`, `yAt`, `xAt` are derived (proved below) closed forms for the
entries of `indexes_z_list`, `indexes_y_list`, `indexes_x_list`.
-/

/-- Closed form of `indexes_z_list`: the layer of position `i`. -/
def zAt (Nx Ny i : ℕ) : ℕ := i / (Nx * Ny)

/-- Closed form of `indexes_y_list`: the row within the layer, reversed
on odd layers. -/
def yAt (Nx Ny i : ℕ) : ℕ :=
  if i / (Nx * Ny) % 2 = 0 then i % (Nx * Ny) / Nx
  else Ny - 1 - i % (Nx * Ny) / Nx

/-- Closed form of `indexes_x_list`: the column within the row, reversed
on odd rows. -/
def xAt (Nx i : ℕ) : ℕ :=
  if i / Nx % 2 = 0 then i % Nx else Nx - 1 - i % Nx

/-!
## Concrete fixtures used by witnesses and counterexamples
-/

/-- A fixture tank. -/
def tank0 : Tank := ⟨"tank", (1, 1, 1)⟩

/-- The spec's concrete scenario: grid `Nx=2, Ny=2, Nz=1`,
`grid_precision = (1,1,1)`, positioned at the origin. -/
def plan221 : MeasurementPlan :=
  ⟨"plan221", tank0, (0, 0, 0), ([0, 1], [0, 1], [0]), (1, 1, 1)⟩

/-- A grid `Nx=8, Ny=4, Nz=1` (32 points), used to exhibit the resume
failure. -/
def plan841 : MeasurementPlan :=
  ⟨"plan841", tank0, (0, 0, 0),
   ([0, 1, 2, 3, 4, 5, 6, 7], [0, 1, 2, 3], [0]), (1, 1, 1)⟩

/-- A plan whose X axis has no coordinates. -/
def planEmptyX : MeasurementPlan :=
  ⟨"planEmptyX", tank0, (0, 0, 0), ([], [0], [0]), (1, 1, 1)⟩

/-- A fixture progress record. -/
def prog0 : MeasurementProgress := ⟨fun _ => (0, 0), 50, 1⟩

/-- A system busy running a measurement of `plan221`, with some progress
stored and motor X away from the plan position. -/
def busySystem : XyzSystem :=
  { initSystem with
      state := .RUNNING,
      measurement_plan := some plan221,
      measurement_progress := some prog0,
      motor_x := 1 }

/-!
## List-level helper lemmas

All index computations are phrased through `List.getD _ _ 0`, which
matches how the executor reads the route arrays.
-/

lemma getD_append_left {l l' : List ℕ} {i : ℕ} (h : i < l.length) :
    (l ++ l').getD i 0 = l.getD i 0 := by
  induction l generalizing i with
  | nil => simp at h
  | cons a t ih =>
      cases i with
      | zero => simp
      | succ n =>
          simp only [List.cons_append, List.getD_cons_succ]
          exact ih (by simpa using h)

lemma getD_append_right {l l' : List ℕ} {i : ℕ} (h : l.length ≤ i) :
    (l ++ l').getD i 0 = l'.getD (i - l.length) 0 := by
  induction l generalizing i with
  | nil => simp
  | cons a t ih =>
      cases i with
      | zero => simp at h
      | succ n =>
          simp only [List.cons_append, List.getD_cons_succ, List.length_cons]
          rw [ih (by simpa using h)]
          congr 1
          omega

lemma getD_replicate {n a i : ℕ} (h : i < n) :
    (List.replicate n a).getD i 0 = a := by
  induction n generalizing i with
  | zero => omega
  | succ m ih =>
      cases i with
      | zero => simp [List.replicate_succ]
      | succ k => simpa [List.replicate_succ] using ih (by omega)

lemma getD_range {n i : ℕ} (h : i < n) :
    (List.range n).getD i 0 = i := by
  rw [List.getD_eq_getElem _ _ (by simpa using h)]
  simp [List.getElem_range]

lemma getD_range_reverse {n i : ℕ} (h : i < n) :
    (List.range n).reverse.getD i 0 = n - 1 - i := by
  rw [List.getD_eq_getElem _ _ (by simpa using h)]
  rw [List.getElem_reverse]
  simp [List.getElem_range]

lemma npRepeat_length (l : List ℕ) (m : ℕ) :
    (npRepeat l m).length = l.length * m := by
  induction l with
  | nil => simp [npRepeat]
  | cons a t ih =>
      simp only [npRepeat, List.length_append, List.length_replicate, ih,
        List.length_cons]
      rw [Nat.succ_mul]
      omega

lemma npRepeat_append (u v : List ℕ) (m : ℕ) :
    npRepeat (u ++ v) m = npRepeat u m ++ npRepeat v m := by
  induction u with
  | nil => simp [npRepeat]
  | cons a t ih => simp [npRepeat, ih]

lemma npRepeat_reverse (l : List ℕ) (m : ℕ) :
    (npRepeat l m).reverse = npRepeat l.reverse m := by
  induction l with
  | nil => simp [npRepeat]
  | cons a t ih =>
      simp only [npRepeat, List.reverse_append, ih, List.reverse_cons,
        List.reverse_replicate, npRepeat_append]
      simp [npRepeat]

lemma npRepeat_getD {l : List ℕ} {m i : ℕ} (h : i < l.length * m) :
    (npRepeat l m).getD i 0 = l.getD (i / m) 0 := by
  induction l generalizing i with
  | nil => simp at h
  | cons a t ih =>
      have hm : 0 < m := by
        rcases Nat.eq_zero_or_pos m with h0 | h0
        · subst h0; simp at h
        · exact h0
      by_cases hi : i < m
      · rw [npRepeat, getD_append_left (by simpa using hi), getD_replicate hi,
          Nat.div_eq_of_lt hi]
        simp
      · push_neg at hi
        have hlen : (a :: t).length * m = t.length * m + m := by
          simp [List.length_cons, Nat.succ_mul]
        have hb : i - m < t.length * m := by omega
        rw [npRepeat, getD_append_right (by simpa using hi)]
        rw [List.length_replicate, ih hb]
        rw [Nat.div_eq i m]
        simp only [hm, hi, and_self, if_true]
        simp


lemma npTileCols_length (l : List ℕ) (k : ℕ) :
    (npTileCols l k).length = k * l.length := by
  induction k with
  | zero => simp [npTileCols]
  | succ n ih => simp [npTileCols, ih, Nat.succ_mul]; omega

lemma npTileCols_getD {l : List ℕ} {k i : ℕ} (h : i < k * l.length) :
    (npTileCols l k).getD i 0 = l.getD (i % l.length) 0 := by
  induction k generalizing i with
  | zero => simp at h
  | succ n ih =>
      have hlen : 0 < l.length := by
        rcases Nat.eq_zero_or_pos l.length with h0 | h0
        · rw [h0] at h; simp at h
        · exact h0
      by_cases hi : i < l.length
      · rw [npTileCols, getD_append_left hi, Nat.mod_eq_of_lt hi]
      · push_neg at hi
        have hmul : (n + 1) * l.length = n * l.length + l.length := Nat.succ_mul n l.length
        rw [npTileCols, getD_append_right hi, ih (by omega)]
        rw [← Nat.mod_eq_sub_mod hi]

/-- Euclidean bookkeeping behind the forward/backward sweeps: position
`i` sits in copy `i / M` of a block of size `M`, and inside a doubled
block of size `2 * M` its offset is `(i / M % 2) * M + i % M`. -/
lemma mod_two_mul (i M : ℕ) (hM : 0 < M) :
    i % (2 * M) = (i / M % 2) * M + i % M := by
  have h1 : M * (i / M) + i % M = i := Nat.div_add_mod i M
  have h2 : 2 * (i / M / 2) + i / M % 2 = i / M := Nat.div_add_mod (i / M) 2
  have hr : i % M < M := Nat.mod_lt _ hM
  have key : i = i / M % 2 * M + i % M + 2 * M * (i / M / 2) := by
    calc i = M * (i / M) + i % M := h1.symm
    _ = M * (2 * (i / M / 2) + i / M % 2) + i % M := by rw [h2]
    _ = i / M % 2 * M + i % M + 2 * M * (i / M / 2) := by ring
  have hble : i / M % 2 ≤ 1 := by omega
  have hbm : i / M % 2 * M ≤ 1 * M := Nat.mul_le_mul_right M hble
  rw [one_mul] at hbm
  have hlt : i / M % 2 * M + i % M < 2 * M := by omega
  calc i % (2 * M) = (i / M % 2 * M + i % M + 2 * M * (i / M / 2)) % (2 * M) := by
        rw [← key]
  _ = (i / M % 2 * M + i % M) % (2 * M) := Nat.add_mul_mod_self_left _ _ _
  _ = i / M % 2 * M + i % M := Nat.mod_eq_of_lt hlt

/-!
## Closed forms for the planner's three index arrays
-/

lemma indexes_z_getD (Nx Ny Nz : ℕ) (hx : 0 < Nx) (hy : 0 < Ny) {i : ℕ}
    (h : i < Nx * Ny * Nz) :
    (indexes_z_list Nx Ny Nz).getD i 0 = zAt Nx Ny i := by
  have hM : 0 < Nx * Ny := Nat.mul_pos hx hy
  have h1 : i < Nz * (Nx * Ny) := by
    have : Nz * (Nx * Ny) = Nx * Ny * Nz := by ring
    omega
  unfold indexes_z_list zAt
  rw [npRepeat_getD (by simpa using h1)]
  exact getD_range ((Nat.div_lt_iff_lt_mul hM).mpr h1)

lemma yForth_length (Nx Ny : ℕ) : (yForth Nx Ny).length = Nx * Ny := by
  rw [yForth, npRepeat_length]
  simp [Nat.mul_comm]

lemma yForth_getD (Nx Ny : ℕ) (hx : 0 < Nx) {r : ℕ} (h : r < Nx * Ny) :
    (yForth Nx Ny).getD r 0 = r / Nx := by
  unfold yForth
  rw [npRepeat_getD (by simpa [Nat.mul_comm] using h)]
  exact getD_range ((Nat.div_lt_iff_lt_mul hx).mpr (by rw [Nat.mul_comm Ny Nx]; exact h))

lemma yBack_getD (Nx Ny : ℕ) (hx : 0 < Nx) {r : ℕ} (h : r < Nx * Ny) :
    (yForth Nx Ny).reverse.getD r 0 = Ny - 1 - r / Nx := by
  unfold yForth
  rw [npRepeat_reverse]
  rw [npRepeat_getD (by simpa [Nat.mul_comm] using h)]
  exact getD_range_reverse
    ((Nat.div_lt_iff_lt_mul hx).mpr (by rw [Nat.mul_comm Ny Nx]; exact h))

lemma yDouble_length (Nx Ny : ℕ) :
    (yForth Nx Ny ++ (yForth Nx Ny).reverse).length = 2 * (Nx * Ny) := by
  simp [yForth_length, two_mul]

/-- Value of the doubled forward/backward y block at the offset of
position `i`. -/
lemma yDouble_getD_at (Nx Ny : ℕ) (hx : 0 < Nx) (hy : 0 < Ny) (i : ℕ) :
    (yForth Nx Ny ++ (yForth Nx Ny).reverse).getD (i % (2 * (Nx * Ny))) 0 =
      yAt Nx Ny i := by
  have hM : 0 < Nx * Ny := Nat.mul_pos hx hy
  have hrM : i % (Nx * Ny) < Nx * Ny := Nat.mod_lt _ hM
  rw [mod_two_mul i (Nx * Ny) hM]
  rcases Nat.mod_two_eq_zero_or_one (i / (Nx * Ny)) with hp | hp
  · rw [hp]
    simp only [zero_mul, zero_add]
    rw [getD_append_left (by rw [yForth_length]; exact hrM)]
    rw [yForth_getD Nx Ny hx hrM]
    unfold yAt
    rw [if_pos hp]
  · rw [hp]
    simp only [one_mul]
    rw [getD_append_right (by rw [yForth_length]; omega)]
    rw [yForth_length]
    have he : Nx * Ny + i % (Nx * Ny) - Nx * Ny = i % (Nx * Ny) := by omega
    rw [he, yBack_getD Nx Ny hx hrM]
    unfold yAt
    rw [if_neg (by omega)]

lemma indexes_y_getD (Nx Ny Nz : ℕ) (hx : 0 < Nx) (hy : 0 < Ny) {i : ℕ}
    (h : i < Nx * Ny * Nz) :
    (indexes_y_list Nx Ny Nz).getD i 0 = yAt Nx Ny i := by
  have hM : 0 < Nx * Ny := Nat.mul_pos hx hy
  have hrM : i % (Nx * Ny) < Nx * Ny := Nat.mod_lt _ hM
  unfold indexes_y_list
  by_cases hz : Nz % 2 = 0
  · rw [if_pos hz]
    have e1 : Nz / 2 * 2 = Nz := Nat.div_mul_cancel (Nat.dvd_of_mod_eq_zero hz)
    have hbound : i < Nz / 2 * (yForth Nx Ny ++ (yForth Nx Ny).reverse).length := by
      rw [yDouble_length]
      have : Nz / 2 * (2 * (Nx * Ny)) = Nx * Ny * Nz := by
        rw [show Nz / 2 * (2 * (Nx * Ny)) = Nz / 2 * 2 * (Nx * Ny) from by ring, e1]
        ring
      omega
    rw [npTileCols_getD hbound, yDouble_length]
    exact yDouble_getD_at Nx Ny hx hy i
  · rw [if_neg hz]
    have e1 : (Nz - 1) / 2 * 2 = Nz - 1 :=
      Nat.div_mul_cancel (Nat.dvd_of_mod_eq_zero (by omega))
    have htile : (npTileCols (yForth Nx Ny ++ (yForth Nx Ny).reverse)
        ((Nz - 1) / 2)).length = (Nz - 1) * (Nx * Ny) := by
      rw [npTileCols_length, yDouble_length]
      rw [show (Nz - 1) / 2 * (2 * (Nx * Ny)) = (Nz - 1) / 2 * 2 * (Nx * Ny) from by ring,
        e1]
    have e3 : (Nz - 1) / 2 * (2 * (Nx * Ny)) = (Nz - 1) * (Nx * Ny) := by
      rw [show (Nz - 1) / 2 * (2 * (Nx * Ny)) = (Nz - 1) / 2 * 2 * (Nx * Ny) from by ring,
        e1]
    by_cases hi : i < (Nz - 1) * (Nx * Ny)
    · rw [getD_append_left (by rw [htile]; exact hi)]
      rw [npTileCols_getD (by rw [yDouble_length, e3]; exact hi), yDouble_length]
      exact yDouble_getD_at Nx Ny hx hy i
    · push_neg at hi
      rw [getD_append_right (by rw [htile]; exact hi), htile]
      have hNz : 0 < Nz := by
        rcases Nat.eq_zero_or_pos Nz with h0 | h0
        · rw [h0] at h; simp at h
        · exact h0
      have hzdiv : i / (Nx * Ny) = Nz - 1 := by
        apply Nat.div_eq_of_lt_le hi
        have e2 : (Nz - 1 + 1) * (Nx * Ny) = Nx * Ny * Nz := by
          rw [show Nz - 1 + 1 = Nz from by omega]; ring
        omega
      have hpar : i / (Nx * Ny) % 2 = 0 := by rw [hzdiv]; omega
      have hrval : i - (Nz - 1) * (Nx * Ny) = i % (Nx * Ny) := by
        have hd := Nat.div_add_mod i (Nx * Ny)
        rw [hzdiv] at hd
        have hA : Nx * Ny * (Nz - 1) = (Nz - 1) * (Nx * Ny) := by ring
        rw [hA] at hd
        omega
      rw [hrval, yForth_getD Nx Ny hx hrM]
      unfold yAt
      rw [if_pos hpar]

lemma xDouble_getD_at (Nx : ℕ) (hx : 0 < Nx) (i : ℕ) :
    (List.range Nx ++ (List.range Nx).reverse).getD (i % (2 * Nx)) 0 = xAt Nx i := by
  have hrx : i % Nx < Nx := Nat.mod_lt _ hx
  rw [mod_two_mul i Nx hx]
  rcases Nat.mod_two_eq_zero_or_one (i / Nx) with hp | hp
  · rw [hp]
    simp only [zero_mul, zero_add]
    rw [getD_append_left (by simpa using hrx), getD_range hrx]
    unfold xAt
    rw [if_pos hp]
  · rw [hp]
    simp only [one_mul]
    rw [getD_append_right (by simp)]
    simp only [List.length_range]
    have he : Nx + i % Nx - Nx = i % Nx := by omega
    rw [he, getD_range_reverse hrx]
    unfold xAt
    rw [if_neg (by omega)]

lemma xDouble_length (Nx : ℕ) :
    (List.range Nx ++ (List.range Nx).reverse).length = 2 * Nx := by
  simp [two_mul]

lemma indexes_x_getD (Nx Ny Nz : ℕ) (hx : 0 < Nx) {i : ℕ}
    (h : i < Nx * Ny * Nz) :
    (indexes_x_list Nx Ny Nz).getD i 0 = xAt Nx i := by
  unfold indexes_x_list
  by_cases hz : Nz * Ny % 2 = 0
  · rw [if_pos hz]
    have e1 : Nz * Ny / 2 * 2 = Nz * Ny := Nat.div_mul_cancel (Nat.dvd_of_mod_eq_zero hz)
    have hbound : i < Nz * Ny / 2 * (List.range Nx ++ (List.range Nx).reverse).length := by
      rw [xDouble_length]
      have : Nz * Ny / 2 * (2 * Nx) = Nx * Ny * Nz := by
        rw [show Nz * Ny / 2 * (2 * Nx) = Nz * Ny / 2 * 2 * Nx from by ring, e1]
        ring
      omega
    rw [npTileCols_getD hbound, xDouble_length]
    exact xDouble_getD_at Nx hx i
  · rw [if_neg hz]
    have e1 : (Nz * Ny - 1) / 2 * 2 = Nz * Ny - 1 :=
      Nat.div_mul_cancel (Nat.dvd_of_mod_eq_zero (by omega))
    have htile : (npTileCols (List.range Nx ++ (List.range Nx).reverse)
        ((Nz * Ny - 1) / 2)).length = (Nz * Ny - 1) * Nx := by
      rw [npTileCols_length, xDouble_length]
      rw [show (Nz * Ny - 1) / 2 * (2 * Nx) = (Nz * Ny - 1) / 2 * 2 * Nx from by ring, e1]
    have e3 : (Nz * Ny - 1) / 2 * (2 * Nx) = (Nz * Ny - 1) * Nx := by
      rw [show (Nz * Ny - 1) / 2 * (2 * Nx) = (Nz * Ny - 1) / 2 * 2 * Nx from by ring, e1]
    by_cases hi : i < (Nz * Ny - 1) * Nx
    · rw [getD_append_left (by rw [htile]; exact hi)]
      rw [npTileCols_getD (by rw [xDouble_length, e3]; exact hi), xDouble_length]
      exact xDouble_getD_at Nx hx i
    · push_neg at hi
      rw [getD_append_right (by rw [htile]; exact hi), htile]
      have hYZ : 0 < Nz * Ny := by
        rcases Nat.eq_zero_or_pos (Nz * Ny) with h0 | h0
        · exfalso
          have : Nx * Ny * Nz = Nx * (Nz * Ny) := by ring
          rw [this, h0] at h
          simp at h
        · exact h0
      have hwdiv : i / Nx = Nz * Ny - 1 := by
        apply Nat.div_eq_of_lt_le hi
        have e2 : (Nz * Ny - 1 + 1) * Nx = Nx * Ny * Nz := by
          rw [show Nz * Ny - 1 + 1 = Nz * Ny from by omega]; ring
        omega
      have hpar : i / Nx % 2 = 0 := by rw [hwdiv]; omega
      have hrval : i - (Nz * Ny - 1) * Nx = i % Nx := by
        have hd := Nat.div_add_mod i Nx
        rw [hwdiv] at hd
        have hA : Nx * (Nz * Ny - 1) = (Nz * Ny - 1) * Nx := by ring
        rw [hA] at hd
        omega
      rw [hrval, getD_range (Nat.mod_lt _ hx)]
      unfold xAt
      rw [if_pos hpar]

/-!
## Lengths of the planner's arrays
-/

lemma indexes_z_length (Nx Ny Nz : ℕ) :
    (indexes_z_list Nx Ny Nz).length = Nx * Ny * Nz := by
  rw [indexes_z_list, npRepeat_length]
  simp [List.length_range]
  ring

lemma indexes_y_length (Nx Ny Nz : ℕ) :
    (indexes_y_list Nx Ny Nz).length = Nx * Ny * Nz := by
  unfold indexes_y_list
  by_cases hz : Nz % 2 = 0
  · rw [if_pos hz, npTileCols_length, yDouble_length]
    have e1 : Nz / 2 * 2 = Nz := Nat.div_mul_cancel (Nat.dvd_of_mod_eq_zero hz)
    rw [show Nz / 2 * (2 * (Nx * Ny)) = Nz / 2 * 2 * (Nx * Ny) from by ring, e1]
    ring
  · rw [if_neg hz]
    obtain ⟨n, rfl⟩ : ∃ n, Nz = n + 1 := ⟨Nz - 1, by omega⟩
    have e1 : (n + 1 - 1) / 2 * 2 = n := by
      rw [show n + 1 - 1 = n from rfl]
      exact Nat.div_mul_cancel (Nat.dvd_of_mod_eq_zero (by omega))
    rw [List.length_append, npTileCols_length, yDouble_length, yForth_length]
    rw [show (n + 1 - 1) / 2 * (2 * (Nx * Ny)) = (n + 1 - 1) / 2 * 2 * (Nx * Ny) from
      by ring, e1]
    ring

lemma indexes_x_length (Nx Ny Nz : ℕ) :
    (indexes_x_list Nx Ny Nz).length = Nx * Ny * Nz := by
  unfold indexes_x_list
  by_cases hz : Nz * Ny % 2 = 0
  · rw [if_pos hz, npTileCols_length, xDouble_length]
    have e1 : Nz * Ny / 2 * 2 = Nz * Ny := Nat.div_mul_cancel (Nat.dvd_of_mod_eq_zero hz)
    rw [show Nz * Ny / 2 * (2 * Nx) = Nz * Ny / 2 * 2 * Nx from by ring, e1]
    ring
  · rw [if_neg hz]
    have hpos : 0 < Nz * Ny := by
      rcases Nat.eq_zero_or_pos (Nz * Ny) with h0 | h0
      · rw [h0] at hz; simp at hz
      · exact h0
    obtain ⟨n, hn⟩ : ∃ n, Nz * Ny = n + 1 := ⟨Nz * Ny - 1, by omega⟩
    have e1 : (Nz * Ny - 1) / 2 * 2 = n := by
      rw [hn, show n + 1 - 1 = n from rfl]
      exact Nat.div_mul_cancel (Nat.dvd_of_mod_eq_zero (by omega))
    rw [List.length_append, npTileCols_length, xDouble_length, List.length_range]
    rw [show (Nz * Ny - 1) / 2 * (2 * Nx) = (Nz * Ny - 1) / 2 * 2 * Nx from by ring, e1]
    have : n * Nx + Nx = (n + 1) * Nx := (Nat.succ_mul n Nx).symm
    rw [this, ← hn]
    ring

lemma npSet_length (idxs : List ℕ) (l : List ℕ) (v : ℕ) :
    (npSet l idxs v).length = l.length := by
  induction idxs generalizing l with
  | nil => simp [npSet]
  | cons p t ih =>
      show (npSet (l.set p v) t v).length = l.length
      rw [ih, List.length_set]

lemma whichMotorList_length (Nx Ny Nz : ℕ) :
    (whichMotorList Nx Ny Nz).length = Nx * Ny * Nz := by
  unfold whichMotorList
  rw [List.length_set, npSet_length, npSet_length, List.length_replicate]
  ring

lemma whichSideList_length (Nx Ny Nz : ℕ) :
    (whichSideList Nx Ny Nz).length = Nx * Ny * Nz := by
  unfold whichSideList
  rw [List.length_set, npSet_length, npSet_length, npSet_length]
  have hwsd : (npRepeat [1, 0] Nx).length = 2 * Nx := by
    rw [npRepeat_length]; simp
  by_cases hz : Nz * Ny % 2 = 0
  · rw [if_pos hz, npTileCols_length, hwsd]
    have e1 : Nz * Ny / 2 * 2 = Nz * Ny := Nat.div_mul_cancel (Nat.dvd_of_mod_eq_zero hz)
    rw [show Nz * Ny / 2 * (2 * Nx) = Nz * Ny / 2 * 2 * Nx from by ring, e1]
    ring
  · rw [if_neg hz]
    have hpos : 0 < Nz * Ny := by
      rcases Nat.eq_zero_or_pos (Nz * Ny) with h0 | h0
      · rw [h0] at hz; simp at hz
      · exact h0
    obtain ⟨n, hn⟩ : ∃ n, Nz * Ny = n + 1 := ⟨Nz * Ny - 1, by omega⟩
    have e1 : (Nz * Ny - 1) / 2 * 2 = n := by
      rw [hn, show n + 1 - 1 = n from rfl]
      exact Nat.div_mul_cancel (Nat.dvd_of_mod_eq_zero (by omega))
    rw [List.length_append, npTileCols_length, hwsd, List.length_replicate]
    rw [show (Nz * Ny - 1) / 2 * (2 * Nx) = (Nz * Ny - 1) / 2 * 2 * Nx from by ring, e1]
    have : n * Nx + Nx = (n + 1) * Nx := (Nat.succ_mul n Nx).symm
    rw [this, ← hn]
    ring

lemma wmsList_length (Nx Ny Nz : ℕ) :
    (wmsList Nx Ny Nz).length = Nx * Ny * Nz := by
  rw [wmsList, List.length_zipWith, whichMotorList_length, whichSideList_length]
  exact Nat.min_self _

/-!
## The index arrays as maps of the closed forms over `List.range`
-/

lemma indexes_z_eq_map (Nx Ny Nz : ℕ) (hx : 0 < Nx) (hy : 0 < Ny) :
    indexes_z_list Nx Ny Nz = (List.range (Nx * Ny * Nz)).map (zAt Nx Ny) := by
  apply List.ext_getElem
  · simp [indexes_z_length]
  · intro i h1 h2
    have hb : i < Nx * Ny * Nz := by rw [indexes_z_length] at h1; exact h1
    rw [← List.getD_eq_getElem _ 0 h1, indexes_z_getD Nx Ny Nz hx hy hb]
    simp [List.getElem_range]

lemma indexes_y_eq_map (Nx Ny Nz : ℕ) (hx : 0 < Nx) (hy : 0 < Ny) :
    indexes_y_list Nx Ny Nz = (List.range (Nx * Ny * Nz)).map (yAt Nx Ny) := by
  apply List.ext_getElem
  · simp [indexes_y_length]
  · intro i h1 h2
    have hb : i < Nx * Ny * Nz := by rw [indexes_y_length] at h1; exact h1
    rw [← List.getD_eq_getElem _ 0 h1, indexes_y_getD Nx Ny Nz hx hy hb]
    simp [List.getElem_range]

lemma indexes_x_eq_map (Nx Ny Nz : ℕ) (hx : 0 < Nx) :
    indexes_x_list Nx Ny Nz = (List.range (Nx * Ny * Nz)).map (xAt Nx) := by
  apply List.ext_getElem
  · simp [indexes_x_length]
  · intro i h1 h2
    have hb : i < Nx * Ny * Nz := by rw [indexes_x_length] at h1; exact h1
    rw [← List.getD_eq_getElem _ 0 h1, indexes_x_getD Nx Ny Nz hx hb]
    simp [List.getElem_range]

/-!
## Bijection arithmetic for the closed forms
-/

lemma xAt_lt (Nx : ℕ) (hx : 0 < Nx) (i : ℕ) : xAt Nx i < Nx := by
  unfold xAt
  have := Nat.mod_lt i hx
  by_cases hp : i / Nx % 2 = 0
  · rw [if_pos hp]; exact this
  · rw [if_neg hp]; omega

lemma yAt_lt (Nx Ny : ℕ) (hx : 0 < Nx) (hy : 0 < Ny) (i : ℕ) : yAt Nx Ny i < Ny := by
  have hM : 0 < Nx * Ny := Nat.mul_pos hx hy
  have hq : i % (Nx * Ny) / Nx < Ny :=
    (Nat.div_lt_iff_lt_mul hx).mpr
      (by rw [Nat.mul_comm Ny Nx]; exact Nat.mod_lt i hM)
  unfold yAt
  by_cases hp : i / (Nx * Ny) % 2 = 0
  · rw [if_pos hp]; exact hq
  · rw [if_neg hp]
    generalize i % (Nx * Ny) / Nx = q at hq
    omega

lemma zAt_lt (Nx Ny Nz : ℕ) (hx : 0 < Nx) (hy : 0 < Ny) {i : ℕ}
    (h : i < Nx * Ny * Nz) : zAt Nx Ny i < Nz := by
  have hM : 0 < Nx * Ny := Nat.mul_pos hx hy
  unfold zAt
  refine (Nat.div_lt_iff_lt_mul hM).mpr ?_
  have : Nz * (Nx * Ny) = Nx * Ny * Nz := by ring
  omega

/-- Row index of position `i`: layer times `Ny` plus the row inside the
layer. -/
lemma div_x_decompose (Nx Ny : ℕ) (hx : 0 < Nx) (i : ℕ) :
    i / Nx = Ny * (i / (Nx * Ny)) + i % (Nx * Ny) / Nx := by
  have h3 : i % (Nx * Ny) % Nx = i % Nx := Nat.mod_mod_of_dvd i ⟨Ny, rfl⟩
  have h2 := Nat.div_add_mod (i % (Nx * Ny)) Nx
  have h1 := Nat.div_add_mod i (Nx * Ny)
  have key : Nx * (Ny * (i / (Nx * Ny)) + i % (Nx * Ny) / Nx) + i % Nx = i := by
    calc Nx * (Ny * (i / (Nx * Ny)) + i % (Nx * Ny) / Nx) + i % Nx
        = Nx * Ny * (i / (Nx * Ny)) + (Nx * (i % (Nx * Ny) / Nx) + i % Nx) := by ring
    _ = Nx * Ny * (i / (Nx * Ny)) + (Nx * (i % (Nx * Ny) / Nx) + i % (Nx * Ny) % Nx) := by
        rw [h3]
    _ = Nx * Ny * (i / (Nx * Ny)) + i % (Nx * Ny) := by rw [h2]
    _ = i := h1
  conv_lhs => rw [← key]
  rw [Nat.mul_add_div hx, Nat.div_eq_of_lt (Nat.mod_lt i hx), add_zero]

lemma triple_inj (Nx Ny : ℕ) (hx : 0 < Nx) (hy : 0 < Ny) {i j : ℕ}
    (hxe : xAt Nx i = xAt Nx j) (hye : yAt Nx Ny i = yAt Nx Ny j)
    (hze : zAt Nx Ny i = zAt Nx Ny j) : i = j := by
  have hM : 0 < Nx * Ny := Nat.mul_pos hx hy
  unfold zAt at hze
  have hq : i % (Nx * Ny) / Nx = j % (Nx * Ny) / Nx := by
    have hbi : i % (Nx * Ny) / Nx < Ny :=
      (Nat.div_lt_iff_lt_mul hx).mpr
        (by rw [Nat.mul_comm Ny Nx]; exact Nat.mod_lt i hM)
    have hbj : j % (Nx * Ny) / Nx < Ny :=
      (Nat.div_lt_iff_lt_mul hx).mpr
        (by rw [Nat.mul_comm Ny Nx]; exact Nat.mod_lt j hM)
    unfold yAt at hye
    rw [hze] at hye
    by_cases hp : j / (Nx * Ny) % 2 = 0
    · rwa [if_pos hp, if_pos hp] at hye
    · rw [if_neg hp, if_neg hp] at hye
      generalize i % (Nx * Ny) / Nx = qi at hbi hye ⊢
      generalize j % (Nx * Ny) / Nx = qj at hbj hye ⊢
      omega
  have hw : i / Nx = j / Nx := by
    rw [div_x_decompose Nx Ny hx i, div_x_decompose Nx Ny hx j, hze, hq]
  have hs : i % Nx = j % Nx := by
    have hbi : i % Nx < Nx := Nat.mod_lt i hx
    have hbj : j % Nx < Nx := Nat.mod_lt j hx
    unfold xAt at hxe
    rw [hw] at hxe
    by_cases hp : j / Nx % 2 = 0
    · rwa [if_pos hp, if_pos hp] at hxe
    · rw [if_neg hp, if_neg hp] at hxe
      generalize i % Nx = si at hbi hxe ⊢
      generalize j % Nx = sj at hbj hxe ⊢
      omega
  have d1 := Nat.div_add_mod i Nx
  have d2 := Nat.div_add_mod j Nx
  calc i = Nx * (i / Nx) + i % Nx := d1.symm
  _ = Nx * (j / Nx) + j % Nx := by rw [hw, hs]
  _ = j := d2

lemma triple_surj (Nx Ny Nz : ℕ) (hx : 0 < Nx) (hy : 0 < Ny) {x y z : ℕ}
    (hxb : x < Nx) (hyb : y < Ny) (hzb : z < Nz) :
    ∃ i, i < Nx * Ny * Nz ∧ xAt Nx i = x ∧ yAt Nx Ny i = y ∧ zAt Nx Ny i = z := by
  have hM : 0 < Nx * Ny := Nat.mul_pos hx hy
  obtain ⟨q, hq1, hq2⟩ : ∃ q, q < Ny ∧ (if z % 2 = 0 then q else Ny - 1 - q) = y := by
    by_cases hp : z % 2 = 0
    · exact ⟨y, hyb, by rw [if_pos hp]⟩
    · exact ⟨Ny - 1 - y, by omega, by rw [if_neg hp]; omega⟩
  obtain ⟨s, hs1, hs2⟩ :
      ∃ s, s < Nx ∧ (if (Ny * z + q) % 2 = 0 then s else Nx - 1 - s) = x := by
    by_cases hp : (Ny * z + q) % 2 = 0
    · exact ⟨x, hxb, by rw [if_pos hp]⟩
    · exact ⟨Nx - 1 - x, by omega, by rw [if_neg hp]; omega⟩
  refine ⟨Nx * (Ny * z + q) + s, ?_, ?_, ?_, ?_⟩
  · have h1 : Nx * (Ny * z + q) + s + 1 ≤ Nx * (Ny * z + q + 1) := by
      have he : Nx * (Ny * z + q + 1) = Nx * (Ny * z + q) + Nx := by ring
      omega
    have hwlt : Ny * z + q + 1 ≤ Ny * Nz := by
      have ha : Ny * (z + 1) = Ny * z + Ny := by ring
      have hb : Ny * (z + 1) ≤ Ny * Nz := Nat.mul_le_mul_left Ny hzb
      omega
    have h2 : Nx * (Ny * z + q + 1) ≤ Nx * (Ny * Nz) := Nat.mul_le_mul_left Nx hwlt
    have h3 : Nx * (Ny * Nz) = Nx * Ny * Nz := by ring
    omega
  · have hdivx : (Nx * (Ny * z + q) + s) / Nx = Ny * z + q := by
      rw [Nat.mul_add_div hx, Nat.div_eq_of_lt hs1, add_zero]
    have hmodx : (Nx * (Ny * z + q) + s) % Nx = s := by
      rw [Nat.mul_add_mod, Nat.mod_eq_of_lt hs1]
    unfold xAt
    rw [hdivx, hmodx]
    exact hs2
  · have hkey : Nx * (Ny * z + q) + s = Nx * Ny * z + (Nx * q + s) := by ring
    have hrlt : Nx * q + s < Nx * Ny := by
      have h1 : Nx * (q + 1) = Nx * q + Nx := by ring
      have h2 : Nx * (q + 1) ≤ Nx * Ny := Nat.mul_le_mul_left Nx hq1
      omega
    have hdivM : (Nx * (Ny * z + q) + s) / (Nx * Ny) = z := by
      rw [hkey, Nat.mul_add_div hM, Nat.div_eq_of_lt hrlt, add_zero]
    have hmodM : (Nx * (Ny * z + q) + s) % (Nx * Ny) = Nx * q + s := by
      rw [hkey, Nat.mul_add_mod, Nat.mod_eq_of_lt hrlt]
    have hqq : (Nx * q + s) / Nx = q := by
      rw [Nat.mul_add_div hx, Nat.div_eq_of_lt hs1, add_zero]
    unfold yAt
    rw [hdivM, hmodM, hqq]
    exact hq2
  · have hkey : Nx * (Ny * z + q) + s = Nx * Ny * z + (Nx * q + s) := by ring
    have hrlt : Nx * q + s < Nx * Ny := by
      have h1 : Nx * (q + 1) = Nx * q + Nx := by ring
      have h2 : Nx * (q + 1) ≤ Nx * Ny := Nat.mul_le_mul_left Nx hq1
      omega
    unfold zAt
    rw [hkey, Nat.mul_add_div hM, Nat.div_eq_of_lt hrlt, add_zero]

/-!
## Executor lemmas
-/

lemma nPercentValues_length (N : ℕ) : (nPercentValues N).length = 9 := by
  simp [nPercentValues]

lemma writeRange_preserves (rt : ScanRoute) :
    ∀ (len lo : ℕ) (d : ℕ × ℕ × ℕ → ℕ × ℕ) (u : ℕ × ℕ × ℕ), d u = pointVal u →
      writeRange rt lo len d u = pointVal u := by
  intro len
  induction len with
  | zero => intro lo d u h; exact h
  | succ n ih =>
      intro lo d u h
      show writeRange rt (lo + 1) n (writePoint rt lo d) u = pointVal u
      apply ih
      unfold writePoint
      by_cases he : u = triAt rt lo
      · rw [if_pos he, he]
      · rw [if_neg he]; exact h

lemma writeRange_visits (rt : ScanRoute) :
    ∀ (len lo : ℕ) (d : ℕ × ℕ × ℕ → ℕ × ℕ) (j : ℕ), lo ≤ j → j < lo + len →
      writeRange rt lo len d (triAt rt j) = pointVal (triAt rt j) := by
  intro len
  induction len with
  | zero => intro lo d j h1 h2; omega
  | succ n ih =>
      intro lo d j h1 h2
      show writeRange rt (lo + 1) n (writePoint rt lo d) (triAt rt j) = _
      by_cases hj : lo + 1 ≤ j
      · exact ih (lo + 1) _ j hj (by omega)
      · have hlo : j = lo := by omega
        subst hlo
        apply writeRange_preserves
        unfold writePoint
        rw [if_pos rfl]

/-- A run with the cooperative stop observed at point `k` processes
exactly the points `i, ..., k`, stores the progress record of point `k`
(with `percent = ceil(100*k/N)`), and ends `.stopped`. -/
lemma acquireLoop_stop (rt : ScanRoute) (prec : ℚ × ℚ × ℚ) (N : ℕ) (npv : List ℕ)
    (k : ℕ) (hk : k < N) :
    ∀ (fuel i count : ℕ) (data : ℕ × ℕ × ℕ → ℕ × ℕ) (motors : ℚ × ℚ × ℚ)
      (prog : Option MeasurementProgress),
      i ≤ k → N ≤ i + fuel → count < npv.length →
      acquireLoop rt prec N npv (some k) fuel i count data motors prog =
        ⟨writeRange rt i (k + 1 - i) data,
         some ⟨writeRange rt i (k + 1 - i) data, ceil100 N k, k⟩,
         motorRange rt prec i (k - i) motors, .stopped⟩ := by
  intro fuel
  induction fuel with
  | zero => intro i count data motors prog h1 h2 h3; omega
  | succ n ih =>
      intro i count data motors prog h1 h2 h3
      have hiN : i < N := by omega
      simp only [acquireLoop]
      rw [if_pos hiN, if_pos h3]
      by_cases hik : i = k
      · subst hik
        rw [if_pos rfl]
        have e1 : i + 1 - i = 1 := by omega
        have e2 : i - i = 0 := by omega
        rw [e1, e2]
        rfl
      · rw [if_neg (show ¬ (some k = some i) by simp; omega)]
        rw [ih (i + 1) _ _ _ _ (by omega) (by omega) (by split_ifs <;> omega)]
        have e1 : k + 1 - i = (k + 1 - (i + 1)) + 1 := by omega
        have e2 : k - i = (k - (i + 1)) + 1 := by omega
        rw [e1, e2]
        rfl

/-- A run that never observes a stop processes the points `i, ..., N-1`
and then stores the epilogue record `(percent = 100, last = N-1)`
(lines 351-353), ending `.finished`. -/
lemma acquireLoop_finish (rt : ScanRoute) (prec : ℚ × ℚ × ℚ) (N : ℕ) (npv : List ℕ) :
    ∀ (fuel i count : ℕ) (data : ℕ × ℕ × ℕ → ℕ × ℕ) (motors : ℚ × ℚ × ℚ)
      (prog : Option MeasurementProgress),
      N ≤ i + fuel → count < npv.length →
      acquireLoop rt prec N npv none fuel i count data motors prog =
        ⟨writeRange rt i (N - i) data,
         some ⟨writeRange rt i (N - i) data, 100, N - 1⟩,
         motorRange rt prec i (N - i) motors, .finished⟩ := by
  intro fuel
  induction fuel with
  | zero =>
      intro i count data motors prog h2 h3
      have hNi : N - i = 0 := by omega
      rw [hNi]
      rfl
  | succ n ih =>
      intro i count data motors prog h2 h3
      by_cases hiN : i < N
      · simp only [acquireLoop]
        rw [if_pos hiN, if_pos h3,
          if_neg (show ¬ ((none : Option ℕ) = some i) by simp)]
        rw [ih (i + 1) _ _ _ _ (by omega) (by split_ifs <;> omega)]
        have e1 : N - i = (N - (i + 1)) + 1 := by omega
        rw [e1]
        rfl
      · simp only [acquireLoop]
        rw [if_neg hiN]
        have hNi : N - i = 0 := by omega
        rw [hNi]
        rfl

/-- A fresh `_acquire_data` call reduces to the loop started at index 0
with a zero-filled array and `n_percent_count = 0`. -/
lemma acquireData_fresh (plan : MeasurementPlan) (rt : ScanRoute)
    (stopAt : Option ℕ) (motors : ℚ × ℚ × ℚ) (hN : 0 < gridCount plan) :
    acquireData plan rt none stopAt motors =
      acquireLoop rt plan.grid_precision (gridCount plan)
        (nPercentValues (gridCount plan)) stopAt (gridCount plan - 0) 0 0
        (fun _ => ((0 : ℕ), (0 : ℕ))) motors none := by
  unfold acquireData
  rw [if_pos hN]

/-!
## Claim C1 and C2 theorems
-/

/-- C1: for every measurement plan whose grid has `Nx, Ny, Nz ≥ 1`
coordinates on the X, Y, Z axes, the route produced by
`_make_scan_route` has exactly `Nx*Ny*Nz` entries, and the sequence of
index triples `(indexes_x[i], indexes_y[i], indexes_z[i])` contains
every triple of `[0,Nx) × [0,Ny) × [0,Nz)` exactly once (no duplicates,
no omissions). -/
theorem c1_route_visits_every_triple_once (Nx Ny Nz : ℕ)
    (hx : 1 ≤ Nx) (hy : 1 ≤ Ny) (hz : 1 ≤ Nz) (r : ScanRoute)
    (hr : makeScanRoute Nx Ny Nz = Except.ok r) :
    r.indexes_x.length = Nx * Ny * Nz ∧
    r.indexes_y.length = Nx * Ny * Nz ∧
    r.indexes_z.length = Nx * Ny * Nz ∧
    r.which_motor_and_side.length = Nx * Ny * Nz ∧
    (routeTriples r).length = Nx * Ny * Nz ∧
    (routeTriples r).Nodup ∧
    (∀ x y z : ℕ, (x, y, z) ∈ routeTriples r ↔ (x < Nx ∧ y < Ny ∧ z < Nz)) := by
  have hx0 : ¬ Nx = 0 := by omega
  have hy0 : ¬ Ny = 0 := by omega
  have hN0 : ¬ Nx * Ny * Nz = 0 := by positivity
  rw [makeScanRoute, if_neg hx0, if_neg hy0, if_neg hN0] at hr
  have hre := Except.ok.inj hr
  subst hre
  have hmap : routeTriples (⟨indexes_x_list Nx Ny Nz, indexes_y_list Nx Ny Nz,
      indexes_z_list Nx Ny Nz, wmsList Nx Ny Nz⟩ : ScanRoute) =
      (List.range (Nx * Ny * Nz)).map
        (fun i => (xAt Nx i, yAt Nx Ny i, zAt Nx Ny i)) := by
    unfold routeTriples
    simp only
    rw [indexes_x_eq_map Nx Ny Nz (by omega), indexes_y_eq_map Nx Ny Nz (by omega) (by omega),
      indexes_z_eq_map Nx Ny Nz (by omega) (by omega)]
    rw [List.zip_map', List.zip_map']
  refine ⟨indexes_x_length Nx Ny Nz, indexes_y_length Nx Ny Nz,
    indexes_z_length Nx Ny Nz, wmsList_length Nx Ny Nz, ?_, ?_, ?_⟩
  · rw [hmap]
    simp
  · rw [hmap]
    refine (List.nodup_range _).map_on ?_
    intro i _ j _ heq
    simp only [Prod.mk.injEq] at heq
    exact triple_inj Nx Ny (by omega) (by omega) heq.1 heq.2.1 heq.2.2
  · intro x y z
    rw [hmap, List.mem_map]
    constructor
    · rintro ⟨i, hi, heq⟩
      rw [List.mem_range] at hi
      simp only [Prod.mk.injEq] at heq
      refine ⟨?_, ?_, ?_⟩
      · rw [← heq.1]; exact xAt_lt Nx (by omega) i
      · rw [← heq.2.1]; exact yAt_lt Nx Ny (by omega) (by omega) i
      · rw [← heq.2.2]; exact zAt_lt Nx Ny Nz (by omega) (by omega) hi
    · rintro ⟨hxb, hyb, hzb⟩
      obtain ⟨i, hiN, h1, h2, h3⟩ := triple_surj Nx Ny Nz (by omega) (by omega) hxb hyb hzb
      exact ⟨i, List.mem_range.mpr hiN, by rw [h1, h2, h3]⟩

/-- Witness for C1: the grid 2 × 2 × 2 satisfies the hypotheses, the
resulting triples are duplicate-free and contain `(1, 1, 1)`. -/
theorem c1_route_visits_every_triple_once_witness :
    (routeTriples (routeD 2 2 2)).Nodup ∧ (1, 1, 1) ∈ routeTriples (routeD 2 2 2) := by
  have h := c1_route_visits_every_triple_once 2 2 2 (by norm_num) (by norm_num)
    (by norm_num) (routeD 2 2 2) rfl
  exact ⟨h.2.2.2.2.2.1, (h.2.2.2.2.2.2 1 1 1).mpr (by norm_num)⟩

/-- C2: in every route of a grid with `Nx, Ny, Nz ≥ 1`, the z indices
are non-decreasing over the whole route (a single forward pass); within
a fixed z layer the y index is one monotonic run whose direction is
given by the layer parity (non-decreasing on even layers — in
particular increasing on the first layer — and non-increasing on odd
layers, so the direction alternates between consecutive layers); and
within a fixed (y, z) row — which is exactly a block of constant
`i / Nx` — the x index is one monotonic run whose direction is given by
the row parity `i / Nx % 2` (increasing on the first row, alternating
between consecutive rows). -/
theorem c2_route_boustrophedon_order (Nx Ny Nz : ℕ)
    (hx : 1 ≤ Nx) (hy : 1 ≤ Ny) (hz : 1 ≤ Nz) (r : ScanRoute)
    (hr : makeScanRoute Nx Ny Nz = Except.ok r) :
    (∀ i, i + 1 < Nx * Ny * Nz →
      r.indexes_z.getD i 0 ≤ r.indexes_z.getD (i + 1) 0) ∧
    (∀ i j, i ≤ j → j < Nx * Ny * Nz →
      r.indexes_z.getD i 0 = r.indexes_z.getD j 0 →
      (r.indexes_z.getD i 0 % 2 = 0 → r.indexes_y.getD i 0 ≤ r.indexes_y.getD j 0) ∧
      (r.indexes_z.getD i 0 % 2 = 1 → r.indexes_y.getD j 0 ≤ r.indexes_y.getD i 0)) ∧
    (∀ i j, i ≤ j → j < Nx * Ny * Nz →
      r.indexes_z.getD i 0 = r.indexes_z.getD j 0 →
      r.indexes_y.getD i 0 = r.indexes_y.getD j 0 →
      i / Nx = j / Nx ∧
      (i / Nx % 2 = 0 → r.indexes_x.getD i 0 ≤ r.indexes_x.getD j 0) ∧
      (i / Nx % 2 = 1 → r.indexes_x.getD j 0 ≤ r.indexes_x.getD i 0)) := by
  have hx' : 0 < Nx := by omega
  have hy' : 0 < Ny := by omega
  have hM : 0 < Nx * Ny := Nat.mul_pos hx' hy'
  have hx0 : ¬ Nx = 0 := by omega
  have hy0 : ¬ Ny = 0 := by omega
  have hN0 : ¬ Nx * Ny * Nz = 0 := by positivity
  rw [makeScanRoute, if_neg hx0, if_neg hy0, if_neg hN0] at hr
  have hre := Except.ok.inj hr
  subst hre
  refine ⟨?_, ?_, ?_⟩
  · intro i hi
    simp only
    rw [indexes_z_getD Nx Ny Nz hx' hy' (by omega), indexes_z_getD Nx Ny Nz hx' hy' hi]
    unfold zAt
    exact Nat.div_le_div_right (by omega)
  · intro i j hij hjN hzz
    have hiN : i < Nx * Ny * Nz := by omega
    simp only at hzz ⊢
    rw [indexes_z_getD Nx Ny Nz hx' hy' hiN, indexes_z_getD Nx Ny Nz hx' hy' hjN] at hzz
    rw [indexes_z_getD Nx Ny Nz hx' hy' hiN, indexes_y_getD Nx Ny Nz hx' hy' hiN,
      indexes_y_getD Nx Ny Nz hx' hy' hjN]
    unfold zAt at hzz ⊢
    have hrmono : i % (Nx * Ny) ≤ j % (Nx * Ny) := by
      have d1 := Nat.div_add_mod i (Nx * Ny)
      have d2 := Nat.div_add_mod j (Nx * Ny)
      rw [hzz] at d1
      generalize Nx * Ny * (j / (Nx * Ny)) = A at d1 d2
      omega
    have hq : i % (Nx * Ny) / Nx ≤ j % (Nx * Ny) / Nx := Nat.div_le_div_right hrmono
    constructor
    · intro hp
      unfold yAt
      rw [if_pos hp, if_pos (by rw [← hzz]; exact hp)]
      exact hq
    · intro hp
      unfold yAt
      rw [if_neg (show ¬ j / (Nx * Ny) % 2 = 0 by omega),
        if_neg (show ¬ i / (Nx * Ny) % 2 = 0 by omega)]
      generalize i % (Nx * Ny) / Nx = qi at hq
      generalize j % (Nx * Ny) / Nx = qj at hq
      omega
  · intro i j hij hjN hzz hyy
    have hiN : i < Nx * Ny * Nz := by omega
    simp only at hzz hyy ⊢
    rw [indexes_z_getD Nx Ny Nz hx' hy' hiN, indexes_z_getD Nx Ny Nz hx' hy' hjN] at hzz
    rw [indexes_y_getD Nx Ny Nz hx' hy' hiN, indexes_y_getD Nx Ny Nz hx' hy' hjN] at hyy
    rw [indexes_x_getD Nx Ny Nz hx' hiN, indexes_x_getD Nx Ny Nz hx' hjN]
    unfold zAt at hzz
    have hqeq : i % (Nx * Ny) / Nx = j % (Nx * Ny) / Nx := by
      have hbi : i % (Nx * Ny) / Nx < Ny :=
        (Nat.div_lt_iff_lt_mul hx').mpr
          (by rw [Nat.mul_comm Ny Nx]; exact Nat.mod_lt i hM)
      have hbj : j % (Nx * Ny) / Nx < Ny :=
        (Nat.div_lt_iff_lt_mul hx').mpr
          (by rw [Nat.mul_comm Ny Nx]; exact Nat.mod_lt j hM)
      unfold yAt at hyy
      rw [hzz] at hyy
      by_cases hp : j / (Nx * Ny) % 2 = 0
      · rwa [if_pos hp, if_pos hp] at hyy
      · rw [if_neg hp, if_neg hp] at hyy
        generalize i % (Nx * Ny) / Nx = qi at hbi hyy ⊢
        generalize j % (Nx * Ny) / Nx = qj at hbj hyy ⊢
        omega
    have hw : i / Nx = j / Nx := by
      rw [div_x_decompose Nx Ny hx' i, div_x_decompose Nx Ny hx' j, hzz, hqeq]
    have hsmono : i % Nx ≤ j % Nx := by
      have d1 := Nat.div_add_mod i Nx
      have d2 := Nat.div_add_mod j Nx
      rw [hw] at d1
      generalize Nx * (j / Nx) = A at d1 d2
      omega
    refine ⟨hw, ?_, ?_⟩
    · intro hp
      unfold xAt
      rw [if_pos hp, if_pos (by rw [← hw]; exact hp)]
      exact hsmono
    · intro hp
      unfold xAt
      rw [if_neg (show ¬ j / Nx % 2 = 0 by omega),
        if_neg (show ¬ i / Nx % 2 = 0 by omega)]
      generalize i % Nx = si at hsmono
      generalize j % Nx = sj at hsmono
      omega

/-- Witness for C2: the grid 2 × 2 × 2 satisfies the hypotheses, and
the first z step of its route is non-decreasing. -/
theorem c2_route_boustrophedon_order_witness :
    (routeD 2 2 2).indexes_z.getD 0 0 ≤ (routeD 2 2 2).indexes_z.getD 1 0 :=
  (c2_route_boustrophedon_order 2 2 2 (by norm_num) (by norm_num) (by norm_num)
    (routeD 2 2 2) rfl).1 0 (by norm_num)

/-!
## Claims C3, C4, C9 (executor)
-/

/-- C3 (counterexample): on the grid `Nx=2, Ny=2, Nz=1` (N = 4 route
points), the progress record stored after completing route point 0 has
`last_measurement_point = 0` but `percent = 0`, not
`ceil(100 * (0+1) / 4) = 25` as the claim states: line 331 computes
`ceil(100 * i / N)`, not `ceil(100 * (i+1) / N)`. -/
theorem c3_progress_formula_counterexample :
    (acquireData plan221 (routeD 2 2 1) none (some 0) (0, 0, 0)).progress.map
      MeasurementProgress.percent = some 0 ∧
    (acquireData plan221 (routeD 2 2 1) none (some 0) (0, 0, 0)).progress.map
      MeasurementProgress.last_measurement_point = some 0 ∧
    ¬ (acquireData plan221 (routeD 2 2 1) none (some 0) (0, 0, 0)).progress.map
      MeasurementProgress.percent = some (ceil100 4 (0 + 1)) := by
  refine ⟨by decide, by decide, by decide⟩

/-- C3 (amended): in a fresh run over a route of `N ≥ 1` points, the
progress record stored after completing route point `k` (observed by
stopping there) has `last_measurement_point = k` and
`percent = ceil(100 * k / N)`; after the loop finishes, the executor
stores one more record with `percent = 100` and
`last_measurement_point = N - 1`. For the grid `Nx=2, Ny=2, Nz=1` the
in-loop percents after the four points are therefore 0, 25, 50, 75,
and 100 becomes readable only with the final record. -/
theorem c3_progress_stored_formula (plan : MeasurementPlan) (rt : ScanRoute)
    (k : ℕ) (motors : ℚ × ℚ × ℚ) (hN : 0 < gridCount plan)
    (hk : k < gridCount plan) :
    (acquireData plan rt none (some k) motors).progress.map
      MeasurementProgress.percent = some (ceil100 (gridCount plan) k) ∧
    (acquireData plan rt none (some k) motors).progress.map
      MeasurementProgress.last_measurement_point = some k ∧
    (acquireData plan rt none (some k) motors).endKind = .stopped ∧
    (acquireData plan rt none none motors).progress.map
      MeasurementProgress.percent = some 100 ∧
    (acquireData plan rt none none motors).progress.map
      MeasurementProgress.last_measurement_point = some (gridCount plan - 1) ∧
    (acquireData plan rt none none motors).endKind = .finished := by
  rw [acquireData_fresh plan rt (some k) motors hN,
    acquireData_fresh plan rt none motors hN]
  rw [acquireLoop_stop rt plan.grid_precision (gridCount plan)
    (nPercentValues (gridCount plan)) k hk (gridCount plan - 0) 0 0
    (fun _ => ((0 : ℕ), (0 : ℕ))) motors none (by omega) (by omega)
    (by rw [nPercentValues_length]; omega)]
  rw [acquireLoop_finish rt plan.grid_precision (gridCount plan)
    (nPercentValues (gridCount plan)) (gridCount plan - 0) 0 0
    (fun _ => ((0 : ℕ), (0 : ℕ))) motors none (by omega)
    (by rw [nPercentValues_length]; omega)]
  simp

/-- Witness for C3 (amended) at the grid 2 × 2 × 1, stop after point 1:
the stored record reads `percent = ceil(100*1/4) = 25`. -/
theorem c3_progress_stored_formula_witness :
    (acquireData plan221 (routeD 2 2 1) none (some 1) (0, 0, 0)).progress.map
      MeasurementProgress.percent = some (ceil100 (gridCount plan221) 1) ∧
    (acquireData plan221 (routeD 2 2 1) none none (0, 0, 0)).progress.map
      MeasurementProgress.percent = some 100 :=
  ⟨(c3_progress_stored_formula plan221 (routeD 2 2 1) 1 (0, 0, 0)
      (by decide) (by decide)).1,
   (c3_progress_stored_formula plan221 (routeD 2 2 1) 1 (0, 0, 0)
      (by decide) (by decide)).2.2.2.1⟩

/-- C4 (code bug evidence): grid `Nx=8, Ny=4, Nz=1` (N = 32). A fresh
uninterrupted run finishes and its payload holds `(30, 0)` at
`[0][3][0]` (route point 31). Stopping after `k = 29` stores
`percent = ceil(100*29/32) = 91`, so the resume sets
`n_percent_count = floor(91/10) = 9`; the resumed run then evaluates
`n_percent_values[9]` on the 9-element milestone list during iteration
30 and dies with `IndexError`, never writing route point 31: its final
payload still holds `(0, 0)` at `[0][3][0]` and its progress reads
`percent = 94`, `last = 30` — not the payload of an uninterrupted run,
contradicting the resume law for `k = 29 < N - 1`. -/
theorem c4_resume_bug_evidence :
    (acquireData plan841 (routeD 8 4 1) none none (0, 0, 0)).endKind = .finished ∧
    (acquireData plan841 (routeD 8 4 1) none none (0, 0, 0)).data (0, 3, 0) = (30, 0) ∧
    (acquireData plan841 (routeD 8 4 1) none (some 29) (0, 0, 0)).endKind = .stopped ∧
    (acquireData plan841 (routeD 8 4 1) none (some 29) (0, 0, 0)).progress.map
      MeasurementProgress.percent = some 91 ∧
    (acquireData plan841 (routeD 8 4 1)
      ((acquireData plan841 (routeD 8 4 1) none (some 29) (0, 0, 0)).progress)
      none (0, 0, 0)).endKind = .indexError ∧
    (acquireData plan841 (routeD 8 4 1)
      ((acquireData plan841 (routeD 8 4 1) none (some 29) (0, 0, 0)).progress)
      none (0, 0, 0)).data (0, 3, 0) = (0, 0) ∧
    (acquireData plan841 (routeD 8 4 1)
      ((acquireData plan841 (routeD 8 4 1) none (some 29) (0, 0, 0)).progress)
      none (0, 0, 0)).progress.map MeasurementProgress.percent = some 94 := by
  refine ⟨by decide, by decide, by decide, by decide, by decide, by decide, by decide⟩

/-- C9: at every route point `i` of a fresh uninterrupted run, the
executor has written into the payload array at `[iz][iy][ix]` the fixed
pair `(100*iz + 10*iy + ix, 0)` — a deterministic function of the
point's indices alone; the model (like lines 330-335 of the source)
invokes no acquisition collaborator, so the recorded data never depends
on a hardware sample. -/
theorem c9_payload_is_deterministic (plan : MeasurementPlan) (rt : ScanRoute)
    (motors : ℚ × ℚ × ℚ) (i : ℕ) (hN : 0 < gridCount plan)
    (hi : i < gridCount plan) :
    (acquireData plan rt none none motors).data (triAt rt i) =
      (100 * (triAt rt i).1 + 10 * (triAt rt i).2.1 + (triAt rt i).2.2, 0) := by
  rw [acquireData_fresh plan rt none motors hN]
  rw [acquireLoop_finish rt plan.grid_precision (gridCount plan)
    (nPercentValues (gridCount plan)) (gridCount plan - 0) 0 0
    (fun _ => ((0 : ℕ), (0 : ℕ))) motors none (by omega)
    (by rw [nPercentValues_length]; omega)]
  show writeRange rt 0 (gridCount plan - 0) _ (triAt rt i) = pointVal (triAt rt i)
  exact writeRange_visits rt (gridCount plan - 0) 0 _ i (by omega) (by omega)

/-- Witness for C9 at the grid 2 × 2 × 1, route point 2 (indices
`(iz, iy, ix) = (0, 1, 1)`): the payload there is `(11, 0)`. -/
theorem c9_payload_is_deterministic_witness :
    (acquireData plan221 (routeD 2 2 1) none none (0, 0, 0)).data
      (triAt (routeD 2 2 1) 2) =
      (100 * (triAt (routeD 2 2 1) 2).1 + 10 * (triAt (routeD 2 2 1) 2).2.1 +
        (triAt (routeD 2 2 1) 2).2.2, 0) :=
  c9_payload_is_deterministic plan221 (routeD 2 2 1) (0, 0, 0) 2
    (by decide) (by decide)

/-!
## Claims C5, C6, C7, C10 (state machine and error handling)
-/

/-- C5 (counterexample): calling `start_measurement` on the freshly
initialized system — no plan configured, state `STOPPED` — raises
nothing, sets the state to `RUNNING` and launches the executor thread,
contradicting the claim that it fails with `NoPlanConfigured` without
mutating anything (the source has no plan check at all; the launched
thread then dies asynchronously on `None.grid`). -/
theorem c5_start_without_plan_counterexample :
    (start_measurement initSystem).2 = none ∧
    (start_measurement initSystem).1.state = .RUNNING ∧
    (start_measurement initSystem).1.measurement_thread = true := by
  refine ⟨rfl, rfl, rfl⟩

/-- C5 (amended): calling `start_measurement` when no measurement plan
is configured and the state is not `RUNNING` succeeds without raising:
it sets the state to `RUNNING` and launches the executor thread (which
only then fails asynchronously when it dereferences the missing plan). -/
theorem c5_start_without_plan_amended (s : XyzSystem)
    (h1 : s.state ≠ .RUNNING) (_h2 : s.measurement_plan = none) :
    start_measurement s =
      ({ s with state := .RUNNING, measurement_thread := true }, none) := by
  unfold start_measurement
  rw [if_neg h1]

/-- Witness for C5 (amended) at the freshly initialized system. -/
theorem c5_start_without_plan_amended_witness :
    start_measurement initSystem =
      ({ initSystem with state := .RUNNING, measurement_thread := true }, none) :=
  c5_start_without_plan_amended initSystem (by decide) rfl

/-- C6 (counterexample): with the system `RUNNING`, `configure_measurement`
raises Busy but has already cleared `measurement_progress` (line 176
precedes the check at line 178), and the move-to-start operation raises
Busy only after all motors have already been driven to the plan
position (lines 390-395 precede line 397): neither rejected call leaves
the system as it was. -/
theorem c6_rejected_ops_mutate_counterexample :
    (configure_measurement busySystem plan221).2 = some .busy ∧
    busySystem.measurement_progress = some prog0 ∧
    (configure_measurement busySystem plan221).1.measurement_progress = none ∧
    some prog0 ≠ (none : Option MeasurementProgress) ∧
    (move_at_the_beginning busySystem).2 = some .busy ∧
    busySystem.motor_x = 1 ∧
    (move_at_the_beginning busySystem).1.motor_x = 0 ∧
    (1 : ℚ) ≠ 0 := by
  refine ⟨rfl, rfl, rfl, by simp, ?_, rfl, ?_, by norm_num⟩
  · norm_num [move_at_the_beginning, busySystem, movedMotor, plan221, initSystem]
  · norm_num [move_at_the_beginning, busySystem, movedMotor, plan221, initSystem]

lemma movedMotor_eq (pos target : ℚ) : movedMotor pos target = target := by
  unfold movedMotor
  by_cases h : 0 < pos - target
  · simp [h]
  · simp only [if_neg h]
    rw [abs_of_nonpos (by linarith)]
    ring

/-- C6 (amended): a `configure_measurement` rejected with Busy while
`RUNNING` leaves the state, plan, route and motors unchanged but resets
`measurement_progress` to `None`; a move-to-start rejected with Busy
while `RUNNING` leaves state, plan, route and progress unchanged but
has already moved all three motors to the plan position. -/
theorem c6_rejected_ops_amended (s : XyzSystem) (p plan : MeasurementPlan)
    (h : s.state = .RUNNING) (hp : s.measurement_plan = some plan) :
    configure_measurement s p = ({ s with measurement_progress := none }, some .busy) ∧
    move_at_the_beginning s =
      ({ s with motor_x := plan.position.1, motor_y := plan.position.2.1,
                motor_z := plan.position.2.2 }, some .busy) := by
  constructor
  · unfold configure_measurement
    simp [h]
  · unfold move_at_the_beginning
    rw [hp]
    simp [h, movedMotor_eq]

/-- Witness for C6 (amended) at the busy fixture system. -/
theorem c6_rejected_ops_amended_witness :
    configure_measurement busySystem plan221 =
      ({ busySystem with measurement_progress := none }, some .busy) ∧
    move_at_the_beginning busySystem =
      ({ busySystem with motor_x := plan221.position.1, motor_y := plan221.position.2.1,
                         motor_z := plan221.position.2.2 }, some .busy) :=
  c6_rejected_ops_amended busySystem plan221 plan221 rfl rfl

/-- C7 (counterexample): configuring a plan whose X axis is empty does
not perform any `InvalidPlan` validation: the error that surfaces is
the numpy `arange`-with-zero-step failure raised from inside
`_make_scan_route`, and by then the invalid plan has already been
installed as `measurement_plan` and the progress discarded —
contradicting "rejected at configure time, before any route is
computed" read as a validation that precedes mutation. The true parts:
no motors move and no scan route is produced. -/
theorem c7_invalid_plan_counterexample :
    (configure_measurement initSystem planEmptyX).2 =
      some (.np .arangeZeroStep) ∧
    (configure_measurement initSystem planEmptyX).1.measurement_plan =
      some planEmptyX ∧
    (configure_measurement initSystem planEmptyX).1.scan_route = none := by
  refine ⟨rfl, rfl, rfl⟩

/-- C7 (amended): configuring a plan with an empty coordinate axis
raises an unstructured error from inside the route computation (arange
step 0, a zero division, or an empty-array index, depending on the
axis) — not a dedicated `InvalidPlan` error and not `Busy`; before the
raise the plan has been installed and the progress discarded, while the
state, the previously stored scan route and all motor positions stay
unchanged, and no route is produced for the new plan. -/
theorem c7_invalid_plan_amended (s : XyzSystem) (p : MeasurementPlan)
    (hs : s.state ≠ .RUNNING)
    (hempty : p.grid.1.length = 0 ∨ p.grid.2.1.length = 0 ∨ p.grid.2.2.length = 0) :
    (configure_measurement s p).1.measurement_plan = some p ∧
    (configure_measurement s p).1.measurement_progress = none ∧
    (configure_measurement s p).1.scan_route = s.scan_route ∧
    (configure_measurement s p).1.state = s.state ∧
    (configure_measurement s p).1.motor_x = s.motor_x ∧
    (configure_measurement s p).1.motor_y = s.motor_y ∧
    (configure_measurement s p).1.motor_z = s.motor_z ∧
    (configure_measurement s p).2 ≠ none ∧
    (configure_measurement s p).2 ≠ some .busy := by
  obtain ⟨e, he⟩ : ∃ e, makeScanRoute p.grid.1.length p.grid.2.1.length
      p.grid.2.2.length = .error e := by
    rcases hempty with h | h | h
    · exact ⟨_, by rw [makeScanRoute, if_pos h]⟩
    · by_cases hx : p.grid.1.length = 0
      · exact ⟨_, by rw [makeScanRoute, if_pos hx]⟩
      · exact ⟨_, by rw [makeScanRoute, if_neg hx, if_pos h]⟩
    · by_cases hx : p.grid.1.length = 0
      · exact ⟨_, by rw [makeScanRoute, if_pos hx]⟩
      · by_cases hy : p.grid.2.1.length = 0
        · exact ⟨_, by rw [makeScanRoute, if_neg hx, if_pos hy]⟩
        · exact ⟨_, by rw [makeScanRoute, if_neg hx, if_neg hy,
            if_pos (by rw [h, Nat.mul_zero])]⟩
  unfold configure_measurement
  rw [if_neg (show ¬ ({ s with measurement_progress := none } : XyzSystem).state =
    .RUNNING from hs), he]
  refine ⟨rfl, rfl, rfl, rfl, rfl, rfl, rfl, by simp, by simp⟩

/-- Witness for C7 (amended) at the empty-X-axis plan on the fresh
system. -/
theorem c7_invalid_plan_amended_witness :
    (configure_measurement initSystem planEmptyX).1.measurement_plan =
      some planEmptyX ∧
    (configure_measurement initSystem planEmptyX).2 ≠ some .busy :=
  ⟨(c7_invalid_plan_amended initSystem planEmptyX (by decide) (Or.inl rfl)).1,
   (c7_invalid_plan_amended initSystem planEmptyX (by decide)
      (Or.inl rfl)).2.2.2.2.2.2.2.2⟩

/-- C10: `resume_measurement` (whose body is `pass`) always returns
without raising and changes nothing: every field of the system — plan,
progress, thread, state, motors, route — is identical before and after,
and no executor task is launched. -/
theorem c10_resume_is_noop (s : XyzSystem) :
    resume_measurement s = (s, none) ∧
    (resume_measurement s).1.measurement_plan = s.measurement_plan ∧
    (resume_measurement s).1.measurement_progress = s.measurement_progress ∧
    (resume_measurement s).1.measurement_thread = s.measurement_thread ∧
    (resume_measurement s).1.state = s.state ∧
    (resume_measurement s).1.motor_x = s.motor_x ∧
    (resume_measurement s).1.motor_y = s.motor_y ∧
    (resume_measurement s).1.motor_z = s.motor_z ∧
    (resume_measurement s).1.scan_route = s.scan_route ∧
    (resume_measurement s).2 = none := by
  exact ⟨rfl, rfl, rfl, rfl, rfl, rfl, rfl, rfl, rfl, rfl⟩

/-!
## Claim C8 (concrete 2 × 2 × 1 scenario)
-/

/-- C8 (counterexample): in the route of the grid `Nx=2, Ny=2, Nz=1`,
the very first entry's recorded move code is 1 — the "move X away"
command, which the executor's action table turns into an actual X-motor
move — not a NONE marker: `which_motor_and_side[i]` records the move
performed AFTER measuring point `i`, and no entry carries a NONE code. -/
theorem c8_first_entry_counterexample :
    (routeD 2 2 1).which_motor_and_side.getD 0 32 = 1 ∧
    applyAction 1 (1, 1, 1) (0, 0, 0) ≠ (0, 0, 0) := by
  constructor
  · decide
  · intro h
    rw [Prod.ext_iff] at h
    norm_num [applyAction] at h

/-- C8 (amended): the planned route of the grid `Nx=2, Ny=2, Nz=1`
visits, in order, the index triples (0,0,0), (1,0,0), (1,1,0), (0,1,0);
`which_motor_and_side` records the move performed after measuring each
entry: code 1 (X away from origin) after entry 0, code 11 (Y away)
after entry 1, code 0 (X toward origin) after entry 2, and the terminal
marker 32 (motor code 3, side code 2 — distinct from the in-layer Z
move code 21 and mapped to no motor action) after the last entry; with
`grid_precision = (1,1,1)` the commanded moves from the origin retrace
exactly those grid points, and the terminal marker moves nothing. -/
theorem c8_concrete_route_amended :
    makeScanRoute 2 2 1 =
      Except.ok ⟨[0, 1, 1, 0], [0, 0, 1, 1], [0, 0, 0, 0], [1, 11, 0, 32]⟩ ∧
    routeTriples (routeD 2 2 1) = [(0, 0, 0), (1, 0, 0), (1, 1, 0), (0, 1, 0)] ∧
    applyAction 1 (1, 1, 1) (0, 0, 0) = (1, 0, 0) ∧
    applyAction 11 (1, 1, 1) (1, 0, 0) = (1, 1, 0) ∧
    applyAction 0 (1, 1, 1) (1, 1, 0) = (0, 1, 0) ∧
    applyAction 32 (1, 1, 1) (0, 1, 0) = (0, 1, 0) := by
  refine ⟨by rfl, by decide, ?_, ?_, ?_, ?_⟩
  · norm_num [applyAction]
  · norm_num [applyAction]
  · norm_num [applyAction]
  · norm_num [applyAction]

end XyzTank
